import Mathlib

/-!
Verification of the `@ticatec/redis-client` wrapper (src/RedisClient.ts,
src/cached-data/AbstractCachedData.ts, src/cached-data/CachedDataManager.ts).

The TypeScript code is shallowly embedded:

* JavaScript values that flow through the wrapper are modelled by `JsValue`
  (strings, integer numbers, booleans, `null`, arrays, objects).
* `JSON.stringify` / `JSON.parse` — the external JSON collaborator used by
  `set`, `getObject`, `rpush` and `lrangeObject` — are modelled by
  `jsonStringify` / `jsonParse`, an executable serializer and a fueled
  recursive-descent parser over `List Char`, with a proved roundtrip.
* The backing store (ioredis / Redis) is modelled by `RedisState`: Redis
  stores strings, and ioredis coerces command arguments to strings
  (`jsValueToWire`).  Each wrapper method is a pure function on `RedisState`
  that also returns the list of store commands it issued (`RedisCmd`), so
  that atomicity claims about write-plus-expiry sequences can be stated.
* The module-level singleton (`RedisClient.init` / `getInstance`) and the
  cache registry (`CachedDataManager`) are modelled as explicit state.
-/

namespace Ticatec

/-- Model of the JavaScript values handled by the wrapper: strings, (integer)
numbers, booleans, `null`, arrays and plain objects (ordered field lists). -/
inductive JsValue where
  | null : JsValue
  | bool : Bool → JsValue
  | num : Int → JsValue
  | str : String → JsValue
  | arr : List JsValue → JsValue
  | obj : List (String × JsValue) → JsValue

/-- JavaScript `typeof`.  Note `typeof null`, `typeof []` and `typeof {}` are
all `"object"`; this is what the guard `typeof value == "object"` in `set`
and `rpush` tests. -/
def jsTypeof : JsValue → String
  | .str _ => "string"
  | .num _ => "number"
  | .bool _ => "boolean"
  | .null => "object"
  | .arr _ => "object"
  | .obj _ => "object"

/-! ### Decimal rendering of numbers -/

/-- The decimal digit characters. -/
def digitChar : Nat → Char
  | 0 => '0'
  | 1 => '1'
  | 2 => '2'
  | 3 => '3'
  | 4 => '4'
  | 5 => '5'
  | 6 => '6'
  | 7 => '7'
  | 8 => '8'
  | 9 => '9'
  | _ => '0'

/-- Numeric value of a decimal digit character. -/
def digitVal (c : Char) : Nat := c.toNat - 48

/-- Decimal rendering of a natural number (most significant digit first). -/
def natToChars (n : Nat) : List Char :=
  if n = 0 then ['0'] else ((Nat.digits 10 n).map digitChar).reverse

/-- Decimal rendering of an integer, with a leading minus sign when negative
(as produced by `JSON.stringify` and `Number.prototype.toString`). -/
def intChars (i : Int) : List Char :=
  if i < 0 then '-' :: natToChars i.natAbs else natToChars i.toNat

/-- Value of a most-significant-first list of digit characters. -/
def digitsVal (cs : List Char) : Nat :=
  cs.foldl (fun acc c => acc * 10 + digitVal c) 0

/-! ### JSON serialization (model of `JSON.stringify`) -/

/-- JSON string escaping for one character: quote and backslash get a
backslash prefix, everything else is emitted verbatim. -/
def escapeChar (c : Char) : List Char :=
  if c = '"' ∨ c = '\\' then ['\\', c] else [c]

/-- JSON string escaping. -/
def escapeChars : List Char → List Char
  | [] => []
  | c :: cs => escapeChar c ++ escapeChars cs

/-- A JSON-quoted object key or string. -/
def quoteKey (k : String) : List Char :=
  '"' :: (escapeChars k.data ++ ['"'])

mutual

/-- Characters of the JSON rendering of a value (model of `JSON.stringify`,
which emits no whitespace). -/
def stringifyChars : JsValue → List Char
  | .null => "null".data
  | .bool true => "true".data
  | .bool false => "false".data
  | .num i => intChars i
  | .str s => '"' :: (escapeChars s.data ++ ['"'])
  | .arr es => '[' :: stringifyElems es
  | .obj fs => '{' :: stringifyFields fs

/-- Array elements (everything after the opening bracket, closing bracket
included). -/
def stringifyElems : List JsValue → List Char
  | [] => [']']
  | v :: vs => stringifyChars v ++ stringifyElemsTail vs

/-- Remaining array elements, each preceded by a comma. -/
def stringifyElemsTail : List JsValue → List Char
  | [] => [']']
  | v :: vs => ',' :: (stringifyChars v ++ stringifyElemsTail vs)

/-- Object fields (everything after the opening brace, closing brace
included). -/
def stringifyFields : List (String × JsValue) → List Char
  | [] => ['}']
  | (k, v) :: fs => quoteKey k ++ (':' :: (stringifyChars v ++ stringifyFieldsTail fs))

/-- Remaining object fields, each preceded by a comma. -/
def stringifyFieldsTail : List (String × JsValue) → List Char
  | [] => ['}']
  | (k, v) :: fs => ',' :: (quoteKey k ++ (':' :: (stringifyChars v ++ stringifyFieldsTail fs)))

end

/-- Model of `JSON.stringify` on the values the wrapper serializes. -/
def jsonStringify (v : JsValue) : String := String.mk (stringifyChars v)

/-! ### JSON parsing (model of `JSON.parse`) -/

/-- Match an expected literal suffix (used for `null`, `true`, `false`). -/
def parseLit : List Char → List Char → Option (List Char)
  | [], cs => some cs
  | _ :: _, [] => none
  | l :: ls, c :: cs => if c = l then parseLit ls cs else none

/-- Parse the body of a JSON string after the opening quote, returning the
unescaped characters and the remaining input after the closing quote. -/
def parseStringBody : List Char → Option (List Char × List Char)
  | [] => none
  | c :: rest =>
    if c = '"' then some ([], rest)
    else if c = '\\' then
      match rest with
      | [] => none
      | e :: rest2 =>
        match parseStringBody rest2 with
        | some (s, r) => some (e :: s, r)
        | none => none
    else
      match parseStringBody rest with
      | some (s, r) => some (c :: s, r)
      | none => none

/-- Parse a nonempty run of decimal digits. -/
def parseNat (cs : List Char) : Option (Nat × List Char) :=
  let ds := cs.takeWhile (fun c => c.isDigit)
  if ds.isEmpty then none
  else some (digitsVal ds, cs.dropWhile (fun c => c.isDigit))

mutual

/-- Fueled recursive-descent JSON value parser.  The fuel bounds the nesting
depth; `jsonParse` supplies fuel larger than the input length, which is
always sufficient. -/
def parseValue : Nat → List Char → Option (JsValue × List Char)
  | 0, _ => none
  | _ + 1, [] => none
  | fuel + 1, c :: cs =>
    if c = 'n' then (parseLit "ull".data cs).map (fun r => (JsValue.null, r))
    else if c = 't' then (parseLit "rue".data cs).map (fun r => (JsValue.bool true, r))
    else if c = 'f' then (parseLit "alse".data cs).map (fun r => (JsValue.bool false, r))
    else if c = '"' then
      match parseStringBody cs with
      | some (s, r) => some (JsValue.str (String.mk s), r)
      | none => none
    else if c = '-' then
      match parseNat cs with
      | some (n, r) => some (JsValue.num (-(n : Int)), r)
      | none => none
    else if c.isDigit then
      match parseNat (c :: cs) with
      | some (n, r) => some (JsValue.num (n : Int), r)
      | none => none
    else if c = '[' then
      match parseElems fuel cs with
      | some (es, r) => some (JsValue.arr es, r)
      | none => none
    else if c = '{' then
      match parseFields fuel cs with
      | some (fs, r) => some (JsValue.obj fs, r)
      | none => none
    else none

/-- Parse the elements of an array after the opening bracket, consuming the
closing bracket. -/
def parseElems : Nat → List Char → Option (List JsValue × List Char)
  | 0, _ => none
  | _ + 1, [] => none
  | fuel + 1, c :: cs =>
    if c = ']' then some ([], cs)
    else
      match parseValue fuel (c :: cs) with
      | none => none
      | some (v, r) =>
        match r with
        | ',' :: r2 =>
          match parseElems fuel r2 with
          | some (vs, r3) => some (v :: vs, r3)
          | none => none
        | ']' :: r2 => some ([v], r2)
        | _ => none

/-- Parse the fields of an object after the opening brace, consuming the
closing brace. -/
def parseFields : Nat → List Char → Option (List (String × JsValue) × List Char)
  | 0, _ => none
  | _ + 1, [] => none
  | fuel + 1, c :: cs =>
    if c = '}' then some ([], cs)
    else if c = '"' then
      match parseStringBody cs with
      | none => none
      | some (k, r) =>
        match r with
        | ':' :: r2 =>
          match parseValue fuel r2 with
          | none => none
          | some (v, r3) =>
            match r3 with
            | ',' :: r4 =>
              match parseFields fuel r4 with
              | some (fs, r5) => some ((String.mk k, v) :: fs, r5)
              | none => none
            | '}' :: r4 => some ([(String.mk k, v)], r4)
            | _ => none
        | _ => none
    else none

end

/-- Parse a whole character list as a single JSON value (no trailing input
allowed, mirroring `JSON.parse`). -/
def jsonParseChars (cs : List Char) : Option JsValue :=
  match parseValue (cs.length + 1) cs with
  | some (v, []) => some v
  | _ => none

/-- Model of `JSON.parse`: `some v` on success, `none` when `JSON.parse`
would throw (the wrapper catches that exception). -/
def jsonParse (s : String) : Option JsValue := jsonParseChars s.data

/-! ### A node-count measure used to discharge the parser's fuel -/

mutual

/-- Number of nodes of a value (each constructor and each list cons counts
one); used as a lower bound for the parser fuel. -/
def msize : JsValue → Nat
  | .null => 1
  | .bool _ => 1
  | .num _ => 1
  | .str _ => 1
  | .arr es => msizeElems es + 1
  | .obj fs => msizeFields fs + 1

/-- Node count of an array-element list. -/
def msizeElems : List JsValue → Nat
  | [] => 0
  | v :: vs => msize v + msizeElems vs + 1

/-- Node count of an object-field list. -/
def msizeFields : List (String × JsValue) → Nat
  | [] => 0
  | (_, v) :: fs => msize v + msizeFields fs + 1

end

/-! ## The backing store (model of Redis as seen through ioredis)

Redis stores strings.  ioredis coerces every command argument to a string;
`jsValueToWire` models that coercion for the values the wrapper can pass
(after the wrapper's own `JSON.stringify` step for `typeof == "object"`
values, only primitives reach the client, but the coercion is total). -/

/-- ioredis/JavaScript coercion of an argument value to the string actually
sent to Redis (`String(v)`): identity on strings, decimal rendering for
numbers, `"true"`/`"false"`/`"null"` for booleans and null, and
`"[object Object]"` for plain objects.  The object and array branches are
unreachable from the wrapper, which JSON-stringifies any
`typeof == "object"` value (objects, arrays, null) before handing it to the
client; the array branch is therefore fixed arbitrarily at the coercion of
the empty array (for a nonempty array JavaScript would comma-join the
coerced elements). -/
def jsValueToWire : JsValue → String
  | .str s => s
  | .num i => String.mk (intChars i)
  | .bool true => "true"
  | .bool false => "false"
  | .null => "null"
  | .obj _ => "[object Object]"
  | .arr _ => ""

/-- State of the backing store: the string, hash, set and list keyspaces.
Expiry times are not part of the state — the claims proved here observe the
store before any expiry elapses, and expiry commands are tracked in the
command traces instead. -/
structure RedisState where
  strings : String → Option String
  hashes : String → List (String × String)
  sets : String → List String
  lists : String → List String

/-- The store with no keys (the state a fresh mock Redis starts in). -/
def emptyRedisState : RedisState :=
  ⟨fun _ => none, fun _ => [], fun _ => [], fun _ => []⟩

/-- One remote command issued to the store client; traces of these model the
sequence of ioredis calls a wrapper method performs. -/
inductive RedisCmd where
  | setCmd (key value : String)
  | setExCmd (key value : String) (seconds : Int)
  | expireCmd (key : String) (seconds : Int)
  | delCmd (key : String)
  | hsetCmd (key : String) (data : List (String × String))
  | saddCmd (key : String) (members : List String)
  | rpushCmd (key value : String)

/-- Store semantics of `SET key value` (also of `SET key value EX s`, whose
expiry component is outside the modelled state). -/
def clientSet (st : RedisState) (key value : String) : RedisState :=
  { st with strings := fun k => if k = key then some value else st.strings k }

/-- Store semantics of `GET key`: the stored string, or null for an absent
key. -/
def clientGet (st : RedisState) (key : String) : Option String :=
  st.strings key

/-- Store semantics of `DEL key`: removes the key whatever its type. -/
def clientDel (st : RedisState) (key : String) : RedisState :=
  { strings := fun k => if k = key then none else st.strings k
    hashes := fun k => if k = key then [] else st.hashes k
    sets := fun k => if k = key then [] else st.sets k
    lists := fun k => if k = key then [] else st.lists k }

/-- Assoc-list update used by the hash keyspace. -/
def setField (h : List (String × String)) (f v : String) : List (String × String) :=
  match h with
  | [] => [(f, v)]
  | (f0, v0) :: rest => if f0 = f then (f0, v) :: rest else (f0, v0) :: setField rest f v

/-- Store semantics of `HSET key f1 v1 f2 v2 ...`: sets every given field. -/
def clientHset (st : RedisState) (key : String) (data : List (String × String)) : RedisState :=
  { st with hashes := fun k =>
      if k = key then data.foldl (fun h p => setField h p.1 p.2) (st.hashes key)
      else st.hashes k }

/-- Store semantics of `SADD key m1 m2 ...`: adds the members not already
present. -/
def clientSadd (st : RedisState) (key : String) (members : List String) : RedisState :=
  { st with sets := fun k =>
      if k = key then members.foldl (fun s m => if m ∈ s then s else s ++ [m]) (st.sets key)
      else st.sets k }

/-- Store semantics of `RPUSH key value`: appends at the tail. -/
def clientRpush (st : RedisState) (key value : String) : RedisState :=
  { st with lists := fun k => if k = key then st.lists key ++ [value] else st.lists k }

/-- Redis `LRANGE` index semantics: negative indices count from the tail
(`-1` is the last element), out-of-range bounds are clamped, and an empty
range yields the empty list. -/
def lrangeSlice (l : List String) (start stop : Int) : List String :=
  let n : Int := l.length
  let s : Int := max (if start < 0 then n + start else start) 0
  let e : Int := if stop < 0 then n + stop else stop
  if e < s then [] else (l.take (e.toNat + 1)).drop s.toNat

/-- Store semantics of `LRANGE key start stop`. -/
def clientLrange (st : RedisState) (key : String) (start stop : Int) : List String :=
  lrangeSlice (st.lists key) start stop

/-! ## The wrapper methods (src/RedisClient.ts)

Each method is a pure function of the store state; methods that issue write
commands also return the trace of client calls they perform.  TTL arguments
are `Option Int`: `none` models JavaScript `null`/`undefined`. -/

namespace RedisClient

/-- The serialization step of `set`/`rpush`:
`if (typeof value == "object") value = JSON.stringify(value);`. -/
def coerceValue (value : JsValue) : JsValue :=
  if jsTypeof value = "object" then JsValue.str (jsonStringify value) else value

/-- The string a call to `set`/`rpush` actually writes for `value`: the
JSON text for `typeof == "object"` values, the ioredis string coercion of
the untouched primitive otherwise. -/
def wireOf (value : JsValue) : String := jsValueToWire (coerceValue value)

/-- JavaScript truth of `seconds != null && seconds > 0` — which coincides
with the truth of `seconds > 0` (in JavaScript `null > 0` and
`undefined > 0` are both false). -/
def ttlPositive : Option Int → Bool
  | none => false
  | some s => 0 < s

/-- `set(key, value, seconds)` (RedisClient.ts:77-86): JSON-stringifies
`typeof == "object"` values; when `seconds == null || seconds == 0` issues a
single `SET`, otherwise a single `SET ... EX seconds`. -/
def set (st : RedisState) (key : String) (value : JsValue) (seconds : Option Int) :
    RedisState × List RedisCmd :=
  let w := wireOf value
  if seconds = none ∨ seconds = some 0 then
    (clientSet st key w, [RedisCmd.setCmd key w])
  else
    (clientSet st key w, [RedisCmd.setExCmd key w (seconds.getD 0)])

/-- `get(key)` (RedisClient.ts:93-95): a plain pass-through returning the
stored string or null. -/
def get (st : RedisState) (key : String) : Option String :=
  clientGet st key

/-- The JavaScript value callers of `get` receive: the stored string, or
`null` for an absent key. -/
def getAsJs (st : RedisState) (key : String) : JsValue :=
  match get st key with
  | some s => JsValue.str s
  | none => JsValue.null

/-- `getObject(key)` (RedisClient.ts:102-113): `result` starts as null and
is only replaced when the stored value is a string whose `JSON.parse`
succeeds; a parse failure is caught and logged, leaving null. -/
def getObject (st : RedisState) (key : String) : JsValue :=
  match get st key with
  | none => JsValue.null
  | some text =>
    match jsonParse text with
    | some v => v
    | none => JsValue.null

/-- `del(key)` (RedisClient.ts:120-122). -/
def del (st : RedisState) (key : String) : RedisState × List RedisCmd :=
  (clientDel st key, [RedisCmd.delCmd key])

/-- `expiry(key, seconds)` (RedisClient.ts:130-132): one `EXPIRE` call;
expiry is outside the modelled state. -/
def expiry (st : RedisState) (key : String) (seconds : Int) : RedisState × List RedisCmd :=
  (st, [RedisCmd.expireCmd key seconds])

/-- `hset(key, data, seconds)` (RedisClient.ts:141-146): one `HSET` call,
then — only when `seconds != null && seconds > 0` — a separate `EXPIRE`
call on the key. -/
def hset (st : RedisState) (key : String) (data : List (String × String))
    (seconds : Option Int) : RedisState × List RedisCmd :=
  let st1 := clientHset st key data
  if ttlPositive seconds then
    (st1, [RedisCmd.hsetCmd key data, RedisCmd.expireCmd key (seconds.getD 0)])
  else
    (st1, [RedisCmd.hsetCmd key data])

/-- `sadd(key, arr, seconds)` (RedisClient.ts:185-190): one `SADD` call,
then — only when `seconds > 0` — a separate `EXPIRE` call. -/
def sadd (st : RedisState) (key : String) (members : List String)
    (seconds : Option Int) : RedisState × List RedisCmd :=
  let st1 := clientSadd st key members
  if ttlPositive seconds then
    (st1, [RedisCmd.saddCmd key members, RedisCmd.expireCmd key (seconds.getD 0)])
  else
    (st1, [RedisCmd.saddCmd key members])

/-- `rpush(key, data, seconds)` (RedisClient.ts:218-226): JSON-stringifies
`typeof == "object"` values, one `RPUSH` call, then — only when
`seconds > 0` — a separate `EXPIRE` call. -/
def rpush (st : RedisState) (key : String) (data : JsValue)
    (seconds : Option Int) : RedisState × List RedisCmd :=
  let w := wireOf data
  let st1 := clientRpush st key w
  if ttlPositive seconds then
    (st1, [RedisCmd.rpushCmd key w, RedisCmd.expireCmd key (seconds.getD 0)])
  else
    (st1, [RedisCmd.rpushCmd key w])

/-- `lrange(key, start, end)` (RedisClient.ts:235-237): pass-through. -/
def lrange (st : RedisState) (key : String) (start stop : Int) : List String :=
  clientLrange st key start stop

/-- The per-element loop of `lrangeObject`: pushes `JSON.parse(item)` when
the parse succeeds; the `catch` branch only logs a warning and pushes
nothing, so a failing element is dropped.  (The `typeof item == "string"`
guard is always true: the store returns strings.) -/
def parseListItems : List String → List JsValue
  | [] => []
  | item :: rest =>
    match jsonParse item with
    | some v => v :: parseListItems rest
    | none => parseListItems rest

/-- `lrangeObject(key, start, end)` (RedisClient.ts:246-261): fetches the
same range as `lrange`, then runs the parse loop over it. -/
def lrangeObject (st : RedisState) (key : String) (start stop : Int) : List JsValue :=
  parseListItems (clientLrange st key start stop)

/-! ### The module-level singleton (RedisClient.ts:11, 44-48, 66-68) -/

/-- An ioredis connection configuration (the fields are irrelevant to the
claims; only identity of the configuration matters). -/
structure RedisConf where
  host : String
  port : Int

/-- One constructed `RedisClient` instance.  `conf = none` models calling
`init(null)`, which selects the mock client; the stored configuration
witnesses that the instance was not reconfigured. -/
structure Instance where
  conf : Option RedisConf

/-- `RedisClient.init(conf)` (RedisClient.ts:44-48): constructs the instance
only when the static field is still unset. -/
def init (conf : Option RedisConf) (inst : Option Instance) : Option Instance :=
  match inst with
  | some i => some i
  | none => some ⟨conf⟩

/-- `RedisClient.getInstance()` (RedisClient.ts:66-68): the body is just
`return RedisClient.instance` — no check, no throw (despite the doc comment
advertising `@throws`); before `init` the static field is `undefined`,
modelled as `none`. -/
def getInstance (inst : Option Instance) : Option Instance := inst

end RedisClient

/-! ## AbstractCachedData (src/cached-data/AbstractCachedData.ts) -/

/-- A cache-entry configuration: the caller-supplied key-derivation function
over (possibly partial) entity values, and the TTL fixed at construction
(`ttl = 0` means no expiry). -/
structure AbstractCachedData where
  getKey : JsValue → String
  ttl : Int

namespace AbstractCachedData

/-- `load(key)` (AbstractCachedData.ts:56-58): `getObject` at the derived
key. -/
def load (c : AbstractCachedData) (st : RedisState) (key : JsValue) : JsValue :=
  RedisClient.getObject st (c.getKey key)

/-- `clean(key)` (AbstractCachedData.ts:65-67): `del` at the derived key. -/
def clean (c : AbstractCachedData) (st : RedisState) (key : JsValue) :
    RedisState × List RedisCmd :=
  RedisClient.del st (c.getKey key)

/-- `save(data)` (AbstractCachedData.ts:74-76): `set` at the key derived
from the full entity, with the configured TTL. -/
def save (c : AbstractCachedData) (st : RedisState) (data : JsValue) :
    RedisState × List RedisCmd :=
  RedisClient.set st (c.getKey data) data (some c.ttl)

end AbstractCachedData

/-! ## CachedDataManager (src/cached-data/CachedDataManager.ts)

The manager is a `Map` from constructor identity to instance.  Constructor
identities are modelled as natural numbers, registered instances as values
of an arbitrary type `α` (instance identity is equality in the model). -/

namespace CachedDataManager

/-- The manager's `Map<CachedDataConstructor, AbstractCachedData<any>>`. -/
def Registry (α : Type) : Type := Nat → Option α

/-- The empty map the private constructor creates. -/
def emptyRegistry (α : Type) : Registry α := fun _ => none

/-- `register(ctor, instance)` (CachedDataManager.ts:61-63): `Map.set`,
overwriting any prior association for the same constructor. -/
def register {α : Type} (m : Registry α) (ctor : Nat) (inst : α) : Registry α :=
  fun k => if k = ctor then some inst else m k

/-- `get(ctor)` (CachedDataManager.ts:73-75): `Map.get`, `undefined`
(`none`) when the constructor was never registered. -/
def get {α : Type} (m : Registry α) (ctor : Nat) : Option α := m ctor

end CachedDataManager

/-! ## Correctness of the JSON model: `jsonParse ∘ jsonStringify = some`

The wrapper relies on the external JSON collaborator satisfying this
roundtrip (for `set`/`getObject` and `save`/`load`); the following lemmas
establish it for the model. -/

theorem digitVal_digitChar {d : Nat} (hd : d < 10) : digitVal (digitChar d) = d := by
  interval_cases d <;> decide

theorem isDigit_digitChar {d : Nat} (hd : d < 10) : (digitChar d).isDigit = true := by
  interval_cases d <;> decide

theorem natToChars_ne_nil (n : Nat) : natToChars n ≠ [] := by
  unfold natToChars
  split
  · simp
  · simp only [ne_eq, List.reverse_eq_nil_iff, List.map_eq_nil_iff]
    exact Nat.digits_ne_nil_iff_ne_zero.mpr (by assumption)

theorem mem_natToChars_isDigit {n : Nat} {c : Char} (hc : c ∈ natToChars n) :
    c.isDigit = true := by
  unfold natToChars at hc
  split at hc
  · simp only [List.mem_singleton] at hc
    subst hc; decide
  · rw [List.mem_reverse, List.mem_map] at hc
    obtain ⟨d, hd, rfl⟩ := hc
    exact isDigit_digitChar (Nat.digits_lt_base (by norm_num) hd)

/-- A decimal digit character is none of the characters the parser
dispatches or delimits on. -/
theorem isDigit_ne {c : Char} (h : c.isDigit = true) :
    c ≠ 'n' ∧ c ≠ 't' ∧ c ≠ 'f' ∧ c ≠ '"' ∧ c ≠ '-' ∧ c ≠ '[' ∧ c ≠ '{' ∧
      c ≠ ']' ∧ c ≠ '}' ∧ c ≠ ',' ∧ c ≠ ':' := by
  refine ⟨?_, ?_, ?_, ?_, ?_, ?_, ?_, ?_, ?_, ?_, ?_⟩ <;>
    · rintro rfl
      exact absurd h (by decide)

theorem digitsVal_natToChars (n : Nat) : digitsVal (natToChars n) = n := by
  unfold natToChars
  split
  · subst n; decide
  · have key : ∀ D : List Nat, (∀ d ∈ D, d < 10) →
        List.foldr (fun d acc => acc * 10 + digitVal (digitChar d)) 0 D = Nat.ofDigits 10 D := by
      intro D
      induction D with
      | nil => intro _; simp [Nat.ofDigits]
      | cons d D ih =>
        intro hmem
        have hd : d < 10 := hmem d (List.mem_cons_self d D)
        have hrest := ih (fun x hx => hmem x (List.mem_cons_of_mem d hx))
        simp only [List.foldr_cons, hrest, Nat.ofDigits_cons, digitVal_digitChar hd]
        ring
    unfold digitsVal
    rw [List.foldl_reverse, List.foldr_map]
    rw [key _ (fun d hd => Nat.digits_lt_base (by norm_num) hd), Nat.ofDigits_digits]

/-- The input does not start with a decimal digit (so a preceding number
token cannot absorb it). -/
def NDS : List Char → Prop
  | [] => True
  | c :: _ => c.isDigit = false

theorem NDS_of_head {c : Char} (h : c.isDigit = false) (cs : List Char) :
    NDS (c :: cs) := h

theorem takeWhile_digits_append {l rest : List Char}
    (hl : ∀ c ∈ l, c.isDigit = true) (hrest : NDS rest) :
    (l ++ rest).takeWhile (fun c => c.isDigit) = l ∧
      (l ++ rest).dropWhile (fun c => c.isDigit) = rest := by
  induction l with
  | nil =>
    simp only [List.nil_append]
    cases rest with
    | nil => simp
    | cons c r =>
      have hc : c.isDigit = false := hrest
      refine ⟨?_, ?_⟩ <;> simp [List.takeWhile_cons, List.dropWhile_cons, hc]
  | cons c l ih =>
    have hc : c.isDigit = true := hl c (List.mem_cons_self c l)
    have hrec := ih (fun x hx => hl x (List.mem_cons_of_mem c hx))
    refine ⟨?_, ?_⟩ <;>
      simp [List.takeWhile_cons, List.dropWhile_cons, hc, hrec.1, hrec.2]

theorem parseNat_natToChars (n : Nat) (rest : List Char) (hrest : NDS rest) :
    parseNat (natToChars n ++ rest) = some (n, rest) := by
  have hsplit := takeWhile_digits_append (l := natToChars n)
    (fun c hc => mem_natToChars_isDigit hc) hrest
  unfold parseNat
  simp only [hsplit.1, hsplit.2]
  rw [if_neg (by simpa [List.isEmpty_iff] using natToChars_ne_nil n)]
  rw [digitsVal_natToChars]

theorem parseStringBody_escape (s rest : List Char) :
    parseStringBody (escapeChars s ++ '"' :: rest) = some (s, rest) := by
  induction s with
  | nil =>
    show parseStringBody ('"' :: rest) = some ([], rest)
    rw [parseStringBody.eq_def]
    simp
  | cons c s ih =>
    show parseStringBody ((escapeChar c ++ escapeChars s) ++ '"' :: rest) = _
    unfold escapeChar
    by_cases hc : c = '"' ∨ c = '\\'
    · rw [if_pos hc]
      show parseStringBody ('\\' :: c :: (escapeChars s ++ '"' :: rest)) = some (c :: s, rest)
      rw [parseStringBody.eq_def]
      simp only [if_neg (show ¬ ('\\' : Char) = '"' by decide),
        if_pos (show ('\\' : Char) = '\\' from rfl), ih]
      simp
    · rw [if_neg hc]
      push_neg at hc
      show parseStringBody (c :: (escapeChars s ++ '"' :: rest)) = some (c :: s, rest)
      rw [parseStringBody.eq_def]
      simp only [if_neg hc.1, if_neg hc.2, ih]
theorem mk_data (s : String) : String.mk s.data = s := rfl

theorem parseValue_null (f : Nat) (rest : List Char) :
    parseValue (f + 1) (stringifyChars JsValue.null ++ rest) = some (JsValue.null, rest) := by
  show parseValue (f + 1) ('n' :: ("ull".data ++ rest)) = some (JsValue.null, rest)
  rw [parseValue.eq_def]
  simp [parseLit]

theorem parseValue_bool (f : Nat) (b : Bool) (rest : List Char) :
    parseValue (f + 1) (stringifyChars (JsValue.bool b) ++ rest) = some (JsValue.bool b, rest) := by
  cases b
  · show parseValue (f + 1) ('f' :: ("alse".data ++ rest)) = _
    rw [parseValue.eq_def]
    simp [parseLit]
  · show parseValue (f + 1) ('t' :: ("rue".data ++ rest)) = _
    rw [parseValue.eq_def]
    simp [parseLit]

theorem parseValue_str (f : Nat) (s : String) (rest : List Char) :
    parseValue (f + 1) (stringifyChars (JsValue.str s) ++ rest) = some (JsValue.str s, rest) := by
  show parseValue (f + 1) ('"' :: ((escapeChars s.data ++ ['"']) ++ rest)) = _
  rw [parseValue.eq_def]
  have harr : (escapeChars s.data ++ ['"']) ++ rest = escapeChars s.data ++ '"' :: rest := by
    simp
  rw [harr]
  simp [parseStringBody_escape, mk_data]

theorem parseValue_num (f : Nat) (i : Int) (rest : List Char) (hrest : NDS rest) :
    parseValue (f + 1) (stringifyChars (JsValue.num i) ++ rest) = some (JsValue.num i, rest) := by
  show parseValue (f + 1) (intChars i ++ rest) = _
  unfold intChars
  by_cases hi : i < 0
  · rw [if_pos hi]
    show parseValue (f + 1) ('-' :: (natToChars i.natAbs ++ rest)) = _
    rw [parseValue.eq_def]
    simp [parseNat_natToChars _ _ hrest]
    rw [abs_of_neg hi]
    ring
  · rw [if_neg hi]
    obtain ⟨c, t, hct⟩ := List.exists_cons_of_ne_nil (natToChars_ne_nil i.toNat)
    have hcdig : c.isDigit = true :=
      mem_natToChars_isDigit (hct ▸ List.mem_cons_self c t)
    obtain ⟨h1, h2, h3, h4, h5, _⟩ := isDigit_ne hcdig
    rw [hct]
    show parseValue (f + 1) (c :: (t ++ rest)) = _
    rw [parseValue.eq_def]
    simp only [if_neg h1, if_neg h2, if_neg h3, if_neg h4, if_neg h5, if_pos hcdig]
    have hin : c :: (t ++ rest) = natToChars i.toNat ++ rest := by
      rw [hct, List.cons_append]
    rw [hin, parseNat_natToChars _ _ hrest]
    have hval : ((i.toNat : Int)) = i := by omega
    simp [hval]

theorem stringifyChars_head (v : JsValue) :
    ∃ c t, stringifyChars v = c :: t ∧ c ≠ ']' := by
  cases v with
  | null => exact ⟨'n', _, rfl, by decide⟩
  | bool b =>
    cases b
    · exact ⟨'f', _, rfl, by decide⟩
    · exact ⟨'t', _, rfl, by decide⟩
  | num i =>
    show ∃ c t, intChars i = c :: t ∧ c ≠ ']'
    unfold intChars
    by_cases hi : i < 0
    · rw [if_pos hi]
      exact ⟨'-', _, rfl, by decide⟩
    · rw [if_neg hi]
      obtain ⟨c, t, hct⟩ := List.exists_cons_of_ne_nil (natToChars_ne_nil i.toNat)
      have hcdig : c.isDigit = true :=
        mem_natToChars_isDigit (hct ▸ List.mem_cons_self c t)
      exact ⟨c, t, hct, (isDigit_ne hcdig).2.2.2.2.2.2.2.1⟩
  | str s => exact ⟨'"', _, rfl, by decide⟩
  | arr es => exact ⟨'[', _, rfl, by decide⟩
  | obj fs => exact ⟨'{', _, rfl, by decide⟩

mutual

theorem msize_le_length : ∀ v : JsValue, msize v ≤ (stringifyChars v).length
  | .null => by simp [msize, stringifyChars]
  | .bool b => by cases b <;> simp [msize, stringifyChars]
  | .num i => by
    simp only [msize, stringifyChars]
    unfold intChars
    split
    · simp
    · have h1 := natToChars_ne_nil i.toNat
      have h2 := List.length_pos.mpr h1
      omega
  | .str s => by simp [msize, stringifyChars]
  | .arr es => by
    have h := msizeElems_le_length es
    simp only [msize, stringifyChars, List.length_cons]
    omega
  | .obj fs => by
    have h := msizeFields_le_length fs
    simp only [msize, stringifyChars, List.length_cons]
    omega

theorem msizeElems_le_length : ∀ vs : List JsValue, msizeElems vs ≤ (stringifyElems vs).length
  | [] => by simp [msizeElems, stringifyElems]
  | v :: vs => by
    have h1 := msize_le_length v
    have h2 := msizeElems_lt_tailLength vs
    simp only [msizeElems, stringifyElems, List.length_append]
    omega

theorem msizeElems_lt_tailLength : ∀ vs : List JsValue, msizeElems vs < (stringifyElemsTail vs).length
  | [] => by simp [msizeElems, stringifyElemsTail]
  | v :: vs => by
    have h1 := msize_le_length v
    have h2 := msizeElems_lt_tailLength vs
    simp only [msizeElems, stringifyElemsTail, List.length_cons, List.length_append]
    omega

theorem msizeFields_le_length : ∀ fs : List (String × JsValue),
    msizeFields fs ≤ (stringifyFields fs).length
  | [] => by simp [msizeFields, stringifyFields]
  | (k, v) :: fs => by
    have h1 := msize_le_length v
    have h2 := msizeFields_lt_tailLength fs
    simp only [msizeFields, stringifyFields, List.length_append, List.length_cons]
    omega

theorem msizeFields_lt_tailLength : ∀ fs : List (String × JsValue),
    msizeFields fs < (stringifyFieldsTail fs).length
  | [] => by simp [msizeFields, stringifyFieldsTail]
  | (k, v) :: fs => by
    have h1 := msize_le_length v
    have h2 := msizeFields_lt_tailLength fs
    simp only [msizeFields, stringifyFieldsTail, List.length_cons, List.length_append]
    omega

end

theorem msize_pos (v : JsValue) : 1 ≤ msize v := by
  cases v <;> simp [msize]

theorem parse_sound : ∀ fuel : Nat,
    (∀ v rest, msize v < fuel → NDS rest →
      parseValue fuel (stringifyChars v ++ rest) = some (v, rest)) ∧
    (∀ vs rest, msizeElems vs < fuel →
      parseElems fuel (stringifyElems vs ++ rest) = some (vs, rest)) ∧
    (∀ fs rest, msizeFields fs < fuel →
      parseFields fuel (stringifyFields fs ++ rest) = some (fs, rest)) := by
  intro fuel
  induction fuel with
  | zero =>
    refine ⟨fun v rest h _ => absurd h (by omega),
      fun vs rest h => absurd h (by omega),
      fun fs rest h => absurd h (by omega)⟩
  | succ f ih =>
    obtain ⟨ihA, ihB, ihC⟩ := ih
    refine ⟨?_, ?_, ?_⟩
    · intro v rest hm hrest
      cases v with
      | null => exact parseValue_null f rest
      | bool b => exact parseValue_bool f b rest
      | num i => exact parseValue_num f i rest hrest
      | str s => exact parseValue_str f s rest
      | arr es =>
        show parseValue (f + 1) ('[' :: (stringifyElems es ++ rest)) = some (JsValue.arr es, rest)
        have hes : msizeElems es < f := by
          have h1 : msize (JsValue.arr es) = msizeElems es + 1 := by simp [msize]
          omega
        rw [parseValue.eq_def]
        simp [ihB es rest hes]
      | obj fs =>
        show parseValue (f + 1) ('{' :: (stringifyFields fs ++ rest)) = some (JsValue.obj fs, rest)
        have hfs : msizeFields fs < f := by
          have h1 : msize (JsValue.obj fs) = msizeFields fs + 1 := by simp [msize]
          omega
        rw [parseValue.eq_def]
        simp [ihC fs rest hfs]
    · intro vs rest hm
      cases vs with
      | nil =>
        show parseElems (f + 1) (']' :: rest) = some ([], rest)
        rw [parseElems.eq_def]
        simp
      | cons v vs =>
        have hmv : msize v < f := by
          have h1 : msizeElems (v :: vs) = msize v + msizeElems vs + 1 := by simp [msizeElems]
          omega
        show parseElems (f + 1) ((stringifyChars v ++ stringifyElemsTail vs) ++ rest) = _
        rw [List.append_assoc]
        obtain ⟨c, t, hct, hcne⟩ := stringifyChars_head v
        rw [hct]
        show parseElems (f + 1) (c :: (t ++ (stringifyElemsTail vs ++ rest))) = _
        rw [parseElems.eq_def]
        simp only [if_neg hcne]
        have hback : c :: (t ++ (stringifyElemsTail vs ++ rest)) =
            stringifyChars v ++ (stringifyElemsTail vs ++ rest) := by
          rw [hct, List.cons_append]
        rw [hback]
        have hnds : NDS (stringifyElemsTail vs ++ rest) := by
          cases vs
          · exact (by decide : ((']' : Char).isDigit = false))
          · exact (by decide : (((',') : Char).isDigit = false))
        rw [ihA v (stringifyElemsTail vs ++ rest) hmv hnds]
        cases vs with
        | nil => simp [stringifyElemsTail]
        | cons w ws =>
          have hmrec : msizeElems (w :: ws) < f := by
            have h1 : msizeElems (v :: w :: ws) = msize v + msizeElems (w :: ws) + 1 := by
              simp [msizeElems]
            have h2 := msize_pos v
            omega
          have htl : stringifyElemsTail (w :: ws) ++ rest =
              ',' :: ((stringifyChars w ++ stringifyElemsTail ws) ++ rest) := by
            simp [stringifyElemsTail]
          rw [htl]
          have hB : parseElems f (stringifyChars w ++ (stringifyElemsTail ws ++ rest)) =
              some (w :: ws, rest) := by
            have hB0 := ihB (w :: ws) rest hmrec
            simpa [stringifyElems] using hB0
          simp [hB]
    · intro fs rest hm
      cases fs with
      | nil =>
        show parseFields (f + 1) ('}' :: rest) = some ([], rest)
        rw [parseFields.eq_def]
        simp
      | cons kv fs =>
        obtain ⟨k, v⟩ := kv
        have hmv : msize v < f := by
          have h1 : msizeFields ((k, v) :: fs) = msize v + msizeFields fs + 1 := by
            simp [msizeFields]
          omega
        have hnds : NDS (stringifyFieldsTail fs ++ rest) := by
          cases fs
          · exact (by decide : ((('}') : Char).isDigit = false))
          · exact (by decide : (((',') : Char).isDigit = false))
        have hneq : ¬ (('"' : Char) = '}') := by decide
        have hA : parseValue f (stringifyChars v ++ (stringifyFieldsTail fs ++ rest)) =
            some (v, stringifyFieldsTail fs ++ rest) :=
          ihA v (stringifyFieldsTail fs ++ rest) hmv hnds
        show parseFields (f + 1)
          ('"' :: (((escapeChars k.data ++ ['"']) ++
            (':' :: (stringifyChars v ++ stringifyFieldsTail fs))) ++ rest)) = _
        have hstr : ((escapeChars k.data ++ ['"']) ++
            (':' :: (stringifyChars v ++ stringifyFieldsTail fs))) ++ rest =
            escapeChars k.data ++ ('"' :: (':' ::
              (stringifyChars v ++ (stringifyFieldsTail fs ++ rest)))) := by
          simp
        rw [hstr, parseFields.eq_def]
        simp only [if_neg hneq, if_true, eq_self_iff_true, parseStringBody_escape, hA]
        cases fs with
        | nil => simp [stringifyFieldsTail, mk_data]
        | cons kv2 fs2 =>
          obtain ⟨k2, v2⟩ := kv2
          have hmrec : msizeFields ((k2, v2) :: fs2) < f := by
            have h1 : msizeFields ((k, v) :: (k2, v2) :: fs2) =
                msize v + msizeFields ((k2, v2) :: fs2) + 1 := by simp [msizeFields]
            have h2 := msize_pos v
            omega
          have htl : stringifyFieldsTail ((k2, v2) :: fs2) ++ rest =
              ',' :: ((quoteKey k2 ++ (':' :: (stringifyChars v2 ++ stringifyFieldsTail fs2)))
                ++ rest) := by
            simp [stringifyFieldsTail]
          rw [htl]
          have hC : parseFields f (quoteKey k2 ++ (':' ::
              (stringifyChars v2 ++ (stringifyFieldsTail fs2 ++ rest)))) =
              some ((k2, v2) :: fs2, rest) := by
            have hC0 := ihC ((k2, v2) :: fs2) rest hmrec
            simpa [stringifyFields] using hC0
          simp [hC, mk_data]

theorem jsonParse_jsonStringify (v : JsValue) : jsonParse (jsonStringify v) = some v := by
  unfold jsonParse jsonStringify jsonParseChars
  have hdata : (String.mk (stringifyChars v)).data = stringifyChars v := rfl
  rw [hdata]
  have hlen : msize v < (stringifyChars v).length + 1 :=
    Nat.lt_succ_of_le (msize_le_length v)
  have hmain := (parse_sound ((stringifyChars v).length + 1)).1 v [] hlen trivial
  rw [List.append_nil] at hmain
  rw [hmain]

/-! ## Helper lemmas shared by the claim theorems -/

theorem set_fst (st : RedisState) (key : String) (v : JsValue) (sec : Option Int) :
    (RedisClient.set st key v sec).1 = clientSet st key (RedisClient.wireOf v) := by
  unfold RedisClient.set
  split <;> rfl

/-- Writing a `typeof == "object"` value and reading it back with `getObject`
recovers the value: `set` stores its JSON text and `getObject` parses it. -/
theorem set_then_getObject (st : RedisState) (key : String) (v : JsValue)
    (sec : Option Int) (hobj : jsTypeof v = "object") :
    RedisClient.getObject ((RedisClient.set st key v sec).1) key = v := by
  rw [set_fst]
  unfold RedisClient.getObject RedisClient.get clientGet clientSet
  simp only [if_pos rfl]
  unfold RedisClient.wireOf RedisClient.coerceValue
  rw [if_pos hobj]
  show (match jsonParse (jsonStringify v) with
    | some w => w
    | none => JsValue.null) = v
  rw [jsonParse_jsonStringify]

theorem getObject_absent (st : RedisState) (key : String)
    (h : st.strings key = none) : RedisClient.getObject st key = JsValue.null := by
  unfold RedisClient.getObject RedisClient.get clientGet
  rw [h]

theorem parseListItems_eq_filterMap (l : List String) :
    RedisClient.parseListItems l = l.filterMap jsonParse := by
  induction l with
  | nil => rfl
  | cons item rest ih =>
    unfold RedisClient.parseListItems
    rw [List.filterMap_cons]
    cases h : jsonParse item <;> simp [h, ih]

/-! ## The claims -/

/-- C1 (amended): `lrangeObject(key, start, end)` fetches the same range as
`lrange` and attempts a JSON parse on each element, but an element whose
parse fails is dropped (the `catch` branch only logs a warning), so the
result is the in-order list of the successfully parsed elements —
`List.filterMap jsonParse` over the fetched range — not one entry per
fetched element. -/
theorem claim1_lrangeObject_drops_unparsable (st : RedisState) (key : String)
    (start stop : Int) :
    RedisClient.lrangeObject st key start stop =
      (RedisClient.lrange st key start stop).filterMap jsonParse :=
  parseListItems_eq_filterMap _

/-- C1 (counterexample to the claim as stated): after `rpush(k, "a")` and
`rpush(k, {n: null})`, the stored list holds the raw text `a` followed by
the JSON text of the object; the claim says `lrangeObject(k, 0, -1)` keeps
the unparsable element `"a"` as raw text (one output entry per fetched
element), but the code drops it: the result holds only the parsed object
and is shorter than the fetched range. -/
theorem claim1_counterexample :
    ¬ (RedisClient.lrangeObject
        ((RedisClient.rpush ((RedisClient.rpush emptyRedisState "k"
          (JsValue.str "a") none).1) "k" (JsValue.obj [("n", JsValue.null)]) none).1)
        "k" 0 (-1) =
      (RedisClient.lrange
        ((RedisClient.rpush ((RedisClient.rpush emptyRedisState "k"
          (JsValue.str "a") none).1) "k" (JsValue.obj [("n", JsValue.null)]) none).1)
        "k" 0 (-1)).map (fun item => (jsonParse item).getD (JsValue.str item))) :=
  fun h => absurd (congrArg List.length h) (by decide)

/-- C2: when the stored value at a key is present but is not valid JSON
text, `getObject` catches the parse failure and returns null, never raising;
the raw value is discarded, so the result coincides with the result for an
absent key. -/
theorem claim2_getObject_nonjson_is_null (st st2 : RedisState) (key s : String)
    (hstored : st.strings key = some s) (hbad : jsonParse s = none)
    (habsent : st2.strings key = none) :
    RedisClient.getObject st key = JsValue.null ∧
      RedisClient.getObject st2 key = JsValue.null := by
  constructor
  · unfold RedisClient.getObject RedisClient.get clientGet
    rw [hstored]
    show (match jsonParse s with
      | some v => v
      | none => JsValue.null) = JsValue.null
    rw [hbad]
  · exact getObject_absent st2 key habsent

/-- C2 witness: key `"k"` holds the non-JSON text `"a"` (written by
`set(k, "a")`); `getObject` returns null on it, and returns null on the
empty store as well. -/
theorem claim2_witness :
    ((RedisClient.set emptyRedisState "k" (JsValue.str "a") none).1.strings "k" = some "a") ∧
    jsonParse "a" = none ∧
    (emptyRedisState.strings "k" = none) ∧
    (RedisClient.getObject ((RedisClient.set emptyRedisState "k"
      (JsValue.str "a") none).1) "k" = JsValue.null ∧
      RedisClient.getObject emptyRedisState "k" = JsValue.null) :=
  ⟨rfl, rfl, rfl,
    claim2_getObject_nonjson_is_null _ _ "k" "a" rfl rfl rfl⟩

/-- C3: for every structured (`typeof == "object"`) value `v` and TTL
`t ≥ 0`, `set(k, v, t)` followed by `getObject(k)` (before any expiry
elapses; expiry is outside the modelled state) returns a value deep-equal
to `v`: `set` JSON-serializes `v` and `getObject` parses it back. -/
theorem claim3_set_getObject_roundtrip (st : RedisState) (key : String)
    (v : JsValue) (t : Int) (hobj : jsTypeof v = "object") (ht : 0 ≤ t) :
    RedisClient.getObject ((RedisClient.set st key v (some t)).1) key = v :=
  set_then_getObject st key v (some t) hobj

/-- C3 witness: `set(k, {n: null}, 5); getObject(k)` returns `{n: null}`. -/
theorem claim3_witness :
    jsTypeof (JsValue.obj [("n", JsValue.null)]) = "object" ∧ (0 : Int) ≤ 5 ∧
    RedisClient.getObject ((RedisClient.set emptyRedisState "k"
      (JsValue.obj [("n", JsValue.null)]) (some 5)).1) "k" =
      JsValue.obj [("n", JsValue.null)] :=
  ⟨rfl, by decide,
    claim3_set_getObject_roundtrip emptyRedisState "k" _ 5 rfl (by decide)⟩

/-- C4 (counterexample to the claim as stated): `true` is a scalar
(non-object) value, so `set(k, true)` writes it with no JSON wrapping — but
the store keeps strings, so `get(k)` returns the coerced string `"true"`,
not the boolean `true`: `set(k, v); get(k)` does not return `v` unchanged
for every scalar. -/
theorem claim4_counterexample :
    jsTypeof (JsValue.bool true) ≠ "object" ∧
    RedisClient.getAsJs ((RedisClient.set emptyRedisState "k"
      (JsValue.bool true) none).1) "k" ≠ JsValue.bool true := by
  constructor
  · intro h
    exact absurd h (by decide)
  · have hval : RedisClient.getAsJs ((RedisClient.set emptyRedisState "k"
        (JsValue.bool true) none).1) "k" = JsValue.str "true" := rfl
    rw [hval]
    intro h
    exact JsValue.noConfusion h

/-- C4 (amended): for every scalar (non-object) value `v`, `set(k, v)`
applies no JSON wrapping before writing — `get(k)` returns the store's
plain string coercion of `v`, which is `v` itself whenever `v` is a
string. -/
theorem claim4_set_get_scalar (st : RedisState) (key : String) (v : JsValue)
    (s : String) (hprim : jsTypeof v ≠ "object") :
    RedisClient.getAsJs ((RedisClient.set st key v none).1) key =
      JsValue.str (jsValueToWire v) ∧
    RedisClient.getAsJs ((RedisClient.set st key (JsValue.str s) none).1) key =
      JsValue.str s := by
  have main : ∀ w : JsValue, jsTypeof w ≠ "object" →
      RedisClient.getAsJs ((RedisClient.set st key w none).1) key =
        JsValue.str (jsValueToWire w) := by
    intro w hw
    rw [set_fst]
    unfold RedisClient.getAsJs RedisClient.get clientGet clientSet
    show (match (if key = key then some (RedisClient.wireOf w) else st.strings key) with
      | some s => JsValue.str s
      | none => JsValue.null) = JsValue.str (jsValueToWire w)
    rw [if_pos rfl]
    show JsValue.str (RedisClient.wireOf w) = JsValue.str (jsValueToWire w)
    unfold RedisClient.wireOf RedisClient.coerceValue
    rw [if_neg hw]
  refine ⟨main v hprim, ?_⟩
  have hs := main (JsValue.str s) (by intro h; simp [jsTypeof] at h)
  simpa [jsValueToWire] using hs

/-- C4 witness: `set(k, false)` stores `"false"`, the string coercion of
the boolean (`get` returns `"false"`), and `set(k, "x"); get(k)` returns
`"x"` unchanged. -/
theorem claim4_witness :
    jsTypeof (JsValue.bool false) ≠ "object" ∧
    (RedisClient.getAsJs ((RedisClient.set emptyRedisState "k"
      (JsValue.bool false) none).1) "k" =
      JsValue.str (jsValueToWire (JsValue.bool false)) ∧
    RedisClient.getAsJs ((RedisClient.set emptyRedisState "k"
      (JsValue.str "x") none).1) "k" = JsValue.str "x") :=
  ⟨by intro h; exact absurd h (by decide),
    claim4_set_get_scalar emptyRedisState "k" (JsValue.bool false) "x"
      (by intro h; exact absurd h (by decide))⟩

/-- C5: `set(key, value, seconds)` always issues exactly one store call and
always writes the value: a plain `SET` when `seconds` is null/undefined or
0, and a single atomic `SET ... EX seconds` otherwise (no separate expiry
command). -/
theorem claim5_set_single_store_call (st : RedisState) (key : String)
    (v : JsValue) (sec : Option Int) :
    (RedisClient.set st key v sec).2 =
      (if sec = none ∨ sec = some 0 then [RedisCmd.setCmd key (RedisClient.wireOf v)]
       else [RedisCmd.setExCmd key (RedisClient.wireOf v) (sec.getD 0)]) ∧
    (RedisClient.set st key v sec).1 = clientSet st key (RedisClient.wireOf v) := by
  refine ⟨?_, set_fst st key v sec⟩
  by_cases h : sec = none ∨ sec = some 0 <;> simp [RedisClient.set, h]

/-- C6: `hset`, `sadd` and `rpush` issue their data write as one store
call, followed by a separate whole-key `EXPIRE` call exactly when the TTL
argument is a number greater than 0 (`ttlPositive`); a null or non-positive
TTL produces no expiry call.  The two calls are distinct commands, not one
atomic command. -/
theorem claim6_write_then_separate_expiry (st : RedisState) (key : String)
    (data : List (String × String)) (members : List String) (v : JsValue)
    (sec : Option Int) :
    (RedisClient.hset st key data sec).2 =
      [RedisCmd.hsetCmd key data] ++
        (if RedisClient.ttlPositive sec then [RedisCmd.expireCmd key (sec.getD 0)] else []) ∧
    (RedisClient.sadd st key members sec).2 =
      [RedisCmd.saddCmd key members] ++
        (if RedisClient.ttlPositive sec then [RedisCmd.expireCmd key (sec.getD 0)] else []) ∧
    (RedisClient.rpush st key v sec).2 =
      [RedisCmd.rpushCmd key (RedisClient.wireOf v)] ++
        (if RedisClient.ttlPositive sec then [RedisCmd.expireCmd key (sec.getD 0)] else []) ∧
    (RedisClient.ttlPositive sec = true ↔ ∃ t, sec = some t ∧ 0 < t) := by
  refine ⟨?_, ?_, ?_, ?_⟩
  · unfold RedisClient.hset
    split <;> simp_all
  · unfold RedisClient.sadd
    split <;> simp_all
  · unfold RedisClient.rpush
    split <;> simp_all
  · cases sec with
    | none => simp [RedisClient.ttlPositive]
    | some t => simp [RedisClient.ttlPositive]

/-- C7: initialization is idempotent — when an instance already exists,
`init(conf)` leaves the static field untouched (same instance, same
configuration, not reconstructed), and `getInstance()` afterwards returns
the same instance as before. -/
theorem claim7_init_idempotent (conf : Option RedisClient.RedisConf)
    (i : RedisClient.Instance) :
    RedisClient.init conf (some i) = some i ∧
    RedisClient.getInstance (RedisClient.init conf (some i)) =
      RedisClient.getInstance (some i) :=
  ⟨rfl, rfl⟩

/-- C8: for a cache entry whose key derivation agrees on the partial key
and the full entity (the documented invariant), `save(entity)` then
`load(partialKey)` returns the entity deep-equal (via the JSON roundtrip),
and `clean(partialKey)` then `load(partialKey)` returns the absent
indicator (null). -/
theorem claim8_cache_save_load_clean (c : AbstractCachedData) (st st2 : RedisState)
    (partialKey : JsValue) (fields : List (String × JsValue))
    (hkey : c.getKey partialKey = c.getKey (JsValue.obj fields)) :
    c.load ((c.save st (JsValue.obj fields)).1) partialKey = JsValue.obj fields ∧
    c.load ((c.clean st2 partialKey).1) partialKey = JsValue.null := by
  constructor
  · unfold AbstractCachedData.load AbstractCachedData.save
    rw [hkey]
    exact set_then_getObject st _ _ (some c.ttl) rfl
  · unfold AbstractCachedData.load AbstractCachedData.clean RedisClient.del
    apply getObject_absent
    show (if c.getKey partialKey = c.getKey partialKey then none
      else st2.strings (c.getKey partialKey)) = none
    rw [if_pos rfl]

/-- C8 witness: the user-cache example — `getKey` derives `"user:7"` from
both the partial key `{id: 7}` and the full entity `{id: 7, name: "A"}`;
save-then-load returns the entity, clean-then-load returns null. -/
theorem claim8_witness :
    (AbstractCachedData.mk (fun _ => "user:7") 3600).getKey
        (JsValue.obj [("id", JsValue.num 7)]) =
      (AbstractCachedData.mk (fun _ => "user:7") 3600).getKey
        (JsValue.obj [("id", JsValue.num 7), ("name", JsValue.str "A")]) ∧
    ((AbstractCachedData.mk (fun _ => "user:7") 3600).load
        (((AbstractCachedData.mk (fun _ => "user:7") 3600).save emptyRedisState
          (JsValue.obj [("id", JsValue.num 7), ("name", JsValue.str "A")])).1)
        (JsValue.obj [("id", JsValue.num 7)]) =
      JsValue.obj [("id", JsValue.num 7), ("name", JsValue.str "A")] ∧
    (AbstractCachedData.mk (fun _ => "user:7") 3600).load
        (((AbstractCachedData.mk (fun _ => "user:7") 3600).clean emptyRedisState
          (JsValue.obj [("id", JsValue.num 7)])).1)
        (JsValue.obj [("id", JsValue.num 7)]) = JsValue.null) :=
  ⟨rfl, claim8_cache_save_load_clean _ emptyRedisState emptyRedisState _ _ rfl⟩

/-- A registry reached from the constructor's empty map by a sequence of
`register` calls, applied in order (kind paired with instance). -/
def CachedDataManager.buildRegistry (α : Type) (regs : List (Nat × α)) :
    CachedDataManager.Registry α :=
  regs.foldl (fun m p => CachedDataManager.register m p.1 p.2) (CachedDataManager.emptyRegistry α)

/-- A sequence of `register` calls none of which names `ctor` leaves the
lookup of `ctor` unchanged. -/
theorem get_foldl_register {α : Type} (regs : List (Nat × α))
    (m : CachedDataManager.Registry α) (ctor : Nat)
    (h : ctor ∉ regs.map Prod.fst) :
    CachedDataManager.get
        (regs.foldl (fun m p => CachedDataManager.register m p.1 p.2) m) ctor =
      CachedDataManager.get m ctor := by
  induction regs generalizing m with
  | nil => rfl
  | cons p rest ih =>
    simp only [List.map_cons, List.mem_cons] at h
    push_neg at h
    rw [List.foldl_cons, ih _ h.2]
    show (if ctor = p.1 then some p.2 else m ctor) = m ctor
    rw [if_neg h.1]

/-- C9: the registry returns exactly the registered instance for a kind;
`register` does not disturb any other kind (frame property), so a kind
never named by the sequence of registrations that built the registry from
the constructor's empty map — in particular any kind in the fresh empty
map — looks up to the absent indicator (not an error); and re-registering
a kind replaces the prior instance. -/
theorem claim9_registry (α : Type) (m : CachedDataManager.Registry α)
    (ctor other : Nat) (inst inst1 inst2 : α) (regs : List (Nat × α)) :
    CachedDataManager.get (CachedDataManager.register m ctor inst) ctor = some inst ∧
    (other ≠ ctor →
      CachedDataManager.get (CachedDataManager.register m ctor inst) other =
        CachedDataManager.get m other) ∧
    CachedDataManager.get (CachedDataManager.emptyRegistry α) ctor = none ∧
    (ctor ∉ regs.map Prod.fst →
      CachedDataManager.get (CachedDataManager.buildRegistry α regs) ctor = none) ∧
    CachedDataManager.get
      (CachedDataManager.register (CachedDataManager.register m ctor inst1) ctor inst2)
      ctor = some inst2 := by
  refine ⟨?_, ?_, rfl, ?_, ?_⟩
  · simp [CachedDataManager.get, CachedDataManager.register]
  · intro hne
    show (if other = ctor then some inst else m other) = m other
    rw [if_neg hne]
  · intro hmem
    exact get_foldl_register regs _ ctor hmem
  · simp [CachedDataManager.get, CachedDataManager.register]

/-- C9 witness: in a registry holding only kind 2 (built by one `register`
on the empty map), looking up the never-registered kind 1 returns the
absent indicator, and a `register` of kind 1 leaves the lookup of the
other kind 2 unchanged. -/
theorem claim9_witness :
    (2 : Nat) ≠ 1 ∧
    (1 : Nat) ∉ ([(2, 9)] : List (Nat × Nat)).map Prod.fst ∧
    (CachedDataManager.get
        (CachedDataManager.register (CachedDataManager.emptyRegistry Nat) 1 5) 2 =
      CachedDataManager.get (CachedDataManager.emptyRegistry Nat) 2) ∧
    CachedDataManager.get (CachedDataManager.buildRegistry Nat [(2, 9)]) 1 = none :=
  ⟨by decide, by decide,
    (claim9_registry Nat (CachedDataManager.emptyRegistry Nat) 1 2 5 6 7 [(2, 9)]).2.1
      (by decide),
    (claim9_registry Nat (CachedDataManager.emptyRegistry Nat) 1 2 5 6 7 [(2, 9)]).2.2.2.1
      (by decide)⟩

/-- C10: `getInstance()` before any `init()` returns the absent value
(`undefined`, modelled as `none`) rather than raising — the body is a bare
field read, despite the doc comment's `@throws`; the uninitialized state is
observable only as an absent handle. -/
theorem claim10_getInstance_uninitialized :
    RedisClient.getInstance (none : Option RedisClient.Instance) = none := rfl

end Ticatec
